import Mathlib

/-!
Verification of the react-permissions-gate rule engine and its React
bindings, shallowly embedded in Lean 4. The core engine (context builder,
rule resolver, rule executor, combinator) is modelled from the design
specification, since only its tests ship in this snapshot; the
`PermissionsRoot` override merge and the `usePermission` hook state
machine are translated from the shipped source files.
-/

/-- Modelled from the spec: outcome of invoking one permission rule. The
source file src/core/ruleEngine.ts is absent from this snapshot; per the
spec a rule either produces a boolean (synchronously or after awaiting)
or raises/rejects with a failure carrying a message. -/
inductive RuleOutcome where
  | ok (b : Bool)
  | err (msg : String)
deriving Repr, DecidableEq

/-- Modelled from the spec: a PermissionRule is a predicate from a
PermissionContext to a boolean outcome; a misbehaving rule may fail,
which we model as the `err` outcome. -/
def PermissionRule (Ctx : Type) : Type := Ctx → RuleOutcome

/-- Modelled from the spec: the immutable evaluation context. `user` and
`resource` are opaque caller data; `roles` and `permissions` are string
sequences used for membership only; `flags` maps a key to the truthiness
of its value (an absent key is falsy). -/
structure PermissionContext where
  user : String
  resource : Option String
  roles : List String
  permissions : List String
  flags : List (String × Bool)
deriving Repr, DecidableEq

/-- Modelled from the spec: a RulesMap maps rule names to rules; lookup
finds the entry registered under a name, if any. -/
def RulesMap : Type := List (String × PermissionRule PermissionContext)

/-- Modelled from the spec: a PermissionCheck is a single rule name, an
ordered sequence of names, or an inline predicate. -/
inductive PermissionCheck where
  | single (name : String)
  | names (l : List String)
  | inline (rule : PermissionRule PermissionContext)

/-- Modelled from the spec: the ANY/ALL combination mode. -/
inductive Mode where
  | any
  | all
deriving Repr, DecidableEq

/-- Modelled from the spec: per-rule trace entry — rule identifier (the
name, or the literal "inline"), boolean result (false on failure),
elapsed duration, and the failure message when the rule raised. -/
structure RuleEvaluationResult where
  rule : String
  result : Bool
  duration : Nat
  error : Option String
deriving Repr, DecidableEq

/-- Modelled from the spec: aggregate outcome of one evaluatePermission
call — the final boolean, the ordered trace, and the mode used. -/
structure EvaluationResult where
  allowed : Bool
  ruleResults : List RuleEvaluationResult
  mode : Mode
deriving Repr, DecidableEq

/-- Truthiness of `flags[key]`: the recorded truthiness when the key is
present, falsy when absent. -/
def flagValue (flags : List (String × Bool)) (key : String) : Bool :=
  (flags.lookup key).getD false

/-- Recognizes the reserved feature-flag name syntax: returns the
characters after the literal prefix "flag:" when the name carries it. -/
def takeFlag : List Char → Option (List Char)
  | 'f' :: 'l' :: 'a' :: 'g' :: ':' :: rest => some rest
  | _ => none

/-- Modelled from the spec: the Rule Resolver. Precedence: a registered
rule wins; else a name with the "flag:" syntax reads the flag by
truthiness; else permission membership, then role membership, each
yielding an always-true rule; else an always-false rule. Resolution
never fails. -/
def resolveStringRule (name : String) (rulesMap : RulesMap)
    (ctx : PermissionContext) : PermissionRule PermissionContext :=
  match rulesMap.lookup name with
  | some r => r
  | none =>
    match takeFlag name.data with
    | some suffix => fun c => .ok (flagValue c.flags (String.mk suffix))
    | none =>
      if ctx.permissions.contains name then fun _ => .ok true
      else if ctx.roles.contains name then fun _ => .ok true
      else fun _ => .ok false

/-- Modelled from the spec: the Rule Executor. Invokes the rule on the
context; a failure is contained — result forced to false and the message
recorded — and never escapes. Wall-clock duration is not computable in a
shallow embedding, so the measured duration is supplied by a timing
oracle value `d`. -/
def evaluateRule (rule : PermissionRule PermissionContext)
    (ctx : PermissionContext) (name : String) (d : Nat) :
    RuleEvaluationResult :=
  match rule ctx with
  | .ok b => { rule := name, result := b, duration := d, error := none }
  | .err m => { rule := name, result := false, duration := d, error := some m }

/-- Modelled from the spec: resolve and execute every entry of a name
sequence in order, with no short-circuiting; `i` indexes the timing
oracle. -/
def evalNames (l : List String) (ctx : PermissionContext)
    (rulesMap : RulesMap) (durs : Nat → Nat) (i : Nat) :
    List RuleEvaluationResult :=
  match l with
  | [] => []
  | n :: rest =>
      evaluateRule (resolveStringRule n rulesMap ctx) ctx n (durs i) ::
        evalNames rest ctx rulesMap durs (i + 1)

/-- Modelled from the spec: combination of a trace under a mode — ANY is
a logical OR over the entries (false when empty), ALL a logical AND
(vacuously true when empty). -/
def combine (mode : Mode) (entries : List RuleEvaluationResult) : Bool :=
  match mode with
  | .any => entries.any (fun e => e.result)
  | .all => entries.all (fun e => e.result)

/-- Modelled from the spec: the Combinator. Dispatches on the shape of
the check: an inline predicate is executed once and tagged "inline"; a
single name is resolved then executed; a sequence is fully executed in
order and combined per the mode. The call always settles to an
EvaluationResult. -/
def evaluatePermission (check : PermissionCheck) (ctx : PermissionContext)
    (rulesMap : RulesMap) (mode : Mode) (durs : Nat → Nat) :
    EvaluationResult :=
  match check with
  | .inline r =>
      let entry := evaluateRule r ctx "inline" (durs 0)
      { allowed := entry.result, ruleResults := [entry], mode := mode }
  | .single n =>
      let entry := evaluateRule (resolveStringRule n rulesMap ctx) ctx n (durs 0)
      { allowed := entry.result, ruleResults := [entry], mode := mode }
  | .names l =>
      let entries := evalNames l ctx rulesMap durs 0
      { allowed := combine mode entries, ruleResults := entries, mode := mode }

/-- A closed sample context used by concrete evaluations below. -/
def sampleCtx (roles permissions : List String)
    (flags : List (String × Bool)) : PermissionContext :=
  { user := "u", resource := none, roles := roles,
    permissions := permissions, flags := flags }

/-- A constant timing oracle for concrete evaluations. -/
def zeroDurs : Nat → Nat := fun _ => 0

example :
    (evaluatePermission (.single "x")
      (sampleCtx [] ["x"] [])
      [("x", fun _ => .ok false)] .any zeroDurs).allowed = false := by
  decide

example :
    (evaluatePermission (.single "flag:newUI")
      (sampleCtx [] [] [("newUI", true)]) [] .any zeroDurs).allowed = true := by
  decide

/-- Props accepted by PermissionsRoot (PermissionsConfig plus children),
from src/unnamed/part_002: `user` and `children` are opaque caller data,
`roles`, `permissions` and `flags` are optional (undefined when absent),
and `rules` is the caller-registered rules map. -/
structure RootProps where
  user : String
  roles : Option (List String)
  permissions : Option (List String)
  flags : Option (List (String × Bool))
  rules : RulesMap
  children : String

/-- Dev-tools override state read by PermissionsRoot, from
src/unnamed/part_002: each field is undefined (`none`) when no override
is set. -/
structure DevToolsState where
  overrideRoles : Option (List String)
  overridePermissions : Option (List String)
  overrideFlags : Option (List (String × Bool))

/-- Nullish coalescing `a ?? b`: the left value when it is defined,
otherwise the right. -/
def coalesce (a b : Option (List α)) : Option (List α) :=
  match a with
  | some v => some v
  | none => b

/-- The effectiveProps computation of PermissionsRoot
(src/unnamed/part_002): when no override field is defined the props pass
through unchanged; otherwise roles, permissions and flags are each
replaced by `override ?? props.field` and every other field is spread
from props. -/
def effectiveProps (props : RootProps) (devState : DevToolsState) :
    RootProps :=
  let hasOverrides := devState.overrideRoles.isSome ||
    devState.overridePermissions.isSome || devState.overrideFlags.isSome
  if hasOverrides then
    { props with
      roles := coalesce devState.overrideRoles props.roles,
      permissions := coalesce devState.overridePermissions props.permissions,
      flags := coalesce devState.overrideFlags props.flags }
  else props

/-- State held by the usePermission hook together with the bookkeeping
of effect generations (src/src/react/usePermission.ts): `allowed` and
`loading` are the useState pair; `gen` identifies the latest effect run
(each run closes over its own `cancelled` flag); `active` is true while
the latest run's cleanup has not executed, i.e. its `cancelled` flag is
still false. -/
structure HookState where
  allowed : Bool
  loading : Bool
  gen : Nat
  active : Bool
deriving Repr, DecidableEq

/-- Events acting on the usePermission hook state
(src/src/react/usePermission.ts): `effectStart` is the effect body
running on mount or on a dependency change (it resets the state to
loading and opens a new generation with a fresh `cancelled = false`
flag); `settle g b` is the promise of generation `g` resolving with
boolean `b` (applied only if that generation's `cancelled` flag is still
false); `cleanup` is the effect cleanup setting `cancelled = true` for
the current generation. -/
inductive HookEvent where
  | effectStart
  | settle (g : Nat) (b : Bool)
  | cleanup
deriving Repr, DecidableEq

/-- Initial useState value of usePermission:
`{ allowed: false, loading: true }`; generation 0 active before any
effect has run (no settle carries generation 0, so this choice is
inert). -/
def initState : HookState :=
  { allowed := false, loading := true, gen := 0, active := true }

/-- One transition of the usePermission hook state machine, translated
from the effect body, the `.then` callback and the cleanup in
src/src/react/usePermission.ts. A settle of a generation whose
`cancelled` flag was set (an older generation, or the current one after
cleanup) performs no state update. -/
def step (s : HookState) (e : HookEvent) : HookState :=
  match e with
  | .effectStart =>
      { allowed := false, loading := true, gen := s.gen + 1, active := true }
  | .settle g b =>
      if s.active && g == s.gen then
        { s with allowed := b, loading := false }
      else s
  | .cleanup => { s with active := false }

/-- The hook state after a sequence of events from the initial state. -/
def runHook (events : List HookEvent) : HookState :=
  events.foldl step initState

theorem evaluateRule_rule (r : PermissionRule PermissionContext)
    (ctx : PermissionContext) (n : String) (d : Nat) :
    (evaluateRule r ctx n d).rule = n := by
  cases h : r ctx <;> simp [evaluateRule, h]

theorem evaluateRule_result_durs (r : PermissionRule PermissionContext)
    (ctx : PermissionContext) (n : String) (d1 d2 : Nat) :
    (evaluateRule r ctx n d1).result = (evaluateRule r ctx n d2).result := by
  cases h : r ctx <;> simp [evaluateRule, h]

theorem evalNames_map_rule (l : List String) (ctx : PermissionContext)
    (rulesMap : RulesMap) (durs : Nat → Nat) (i : Nat) :
    (evalNames l ctx rulesMap durs i).map (fun e => e.rule) = l := by
  induction l generalizing i with
  | nil => rfl
  | cons n rest ih => simp [evalNames, evaluateRule_rule, ih]

theorem evalNames_map_result_durs (l : List String) (ctx : PermissionContext)
    (rulesMap : RulesMap) (d1 d2 : Nat → Nat) (i j : Nat) :
    (evalNames l ctx rulesMap d1 i).map (fun e => e.result) =
      (evalNames l ctx rulesMap d2 j).map (fun e => e.result) := by
  induction l generalizing i j with
  | nil => rfl
  | cons n rest ih =>
      simp only [evalNames, List.map_cons]
      rw [evaluateRule_result_durs _ _ _ _ (d2 j), ih]

theorem any_factors_through_map (l : List RuleEvaluationResult) :
    l.any (fun e => e.result) = (l.map (fun e => e.result)).any id := by
  induction l with
  | nil => rfl
  | cons a t ih => simp [List.any_cons, ih]

theorem all_factors_through_map (l : List RuleEvaluationResult) :
    l.all (fun e => e.result) = (l.map (fun e => e.result)).all id := by
  induction l with
  | nil => rfl
  | cons a t ih => simp [List.all_cons, ih]

theorem combine_congr (mode : Mode) (l1 l2 : List RuleEvaluationResult)
    (h : l1.map (fun e => e.result) = l2.map (fun e => e.result)) :
    combine mode l1 = combine mode l2 := by
  cases mode <;> simp only [combine]
  · rw [any_factors_through_map, h, ← any_factors_through_map]
  · rw [all_factors_through_map, h, ← all_factors_through_map]

/-- C1: resolution precedence — a rule registered in the rulesMap is
returned unchanged (so the registered always-false rule for "x" beats
the permission-membership fallback and yields allowed = false), and for
a name with no registered rule and no "flag:" syntax, permission
membership is consulted before role membership, either one resolving to
an always-true rule. -/
theorem resolveStringRule_precedence (name : String) (rulesMap : RulesMap)
    (ctx : PermissionContext) (durs : Nat → Nat) :
    (∀ r, rulesMap.lookup name = some r →
       resolveStringRule name rulesMap ctx = r)
  ∧ (evaluatePermission (.single "x") (sampleCtx [] ["x"] [])
       [("x", fun _ => .ok false)] .any durs).allowed = false
  ∧ (rulesMap.lookup name = none → takeFlag name.data = none →
       name ∈ ctx.permissions →
       resolveStringRule name rulesMap ctx = (fun _ => .ok true))
  ∧ (rulesMap.lookup name = none → takeFlag name.data = none →
       name ∉ ctx.permissions → name ∈ ctx.roles →
       resolveStringRule name rulesMap ctx = (fun _ => .ok true)) := by
  refine ⟨?_, rfl, ?_, ?_⟩
  · intro r h
    simp [resolveStringRule, h]
  · intro h1 h2 h3
    simp [resolveStringRule, h1, h2, h3]
  · intro h1 h2 h3 h4
    simp [resolveStringRule, h1, h2, h3, h4]

theorem resolveStringRule_precedence_spot :
    resolveStringRule "x" [("x", fun _ => .ok false)]
      (sampleCtx [] ["x"] []) = (fun _ => .ok false)
  ∧ resolveStringRule "p" [] (sampleCtx [] ["p"] []) = (fun _ => .ok true)
  ∧ resolveStringRule "r" [] (sampleCtx ["r"] [] []) = (fun _ => .ok true) :=
  ⟨(resolveStringRule_precedence "x" [("x", fun _ => .ok false)]
      (sampleCtx [] ["x"] []) zeroDurs).1 _ rfl,
   (resolveStringRule_precedence "p" [] (sampleCtx [] ["p"] [])
      zeroDurs).2.2.1 rfl rfl (by decide),
   (resolveStringRule_precedence "r" [] (sampleCtx ["r"] [] [])
      zeroDurs).2.2.2 rfl rfl (by decide) (by decide)⟩

/-- C2: combination semantics — an empty name sequence yields allowed =
false in mode ANY and allowed = true in mode ALL; for any sequence,
allowed in mode ANY holds iff some trace entry's boolean is true, and in
mode ALL iff every trace entry's boolean is true. -/
theorem evaluatePermission_mode_semantics (l : List String)
    (ctx : PermissionContext) (rulesMap : RulesMap) (durs : Nat → Nat) :
    (evaluatePermission (.names []) ctx rulesMap .any durs).allowed = false
  ∧ (evaluatePermission (.names []) ctx rulesMap .all durs).allowed = true
  ∧ ((evaluatePermission (.names l) ctx rulesMap .any durs).allowed = true ↔
      ∃ e ∈ (evaluatePermission (.names l) ctx rulesMap .any durs).ruleResults,
        e.result = true)
  ∧ ((evaluatePermission (.names l) ctx rulesMap .all durs).allowed = true ↔
      ∀ e ∈ (evaluatePermission (.names l) ctx rulesMap .all durs).ruleResults,
        e.result = true) := by
  refine ⟨rfl, rfl, ?_, ?_⟩
  · simp [evaluatePermission, combine, List.any_eq_true]
  · simp [evaluatePermission, combine, List.all_eq_true]

theorem evaluatePermission_mode_semantics_spot :
    (evaluatePermission (.names []) (sampleCtx [] [] []) [] .any
      zeroDurs).allowed = false
  ∧ (evaluatePermission (.names []) (sampleCtx [] [] []) [] .all
      zeroDurs).allowed = true :=
  ⟨(evaluatePermission_mode_semantics [] (sampleCtx [] [] []) [] zeroDurs).1,
   (evaluatePermission_mode_semantics [] (sampleCtx [] [] []) [] zeroDurs).2.1⟩

/-- C3: failure containment — a rule whose invocation fails with a
message produces an executor entry with result = false and error = that
message, and an inline evaluatePermission over it settles to a trace
with exactly that entry; evaluatePermission is a total function, so no
input makes the call itself fail. -/
theorem evaluateRule_failure_containment
    (r : PermissionRule PermissionContext) (ctx : PermissionContext)
    (n msg : String) (d : Nat) (rulesMap : RulesMap) (mode : Mode)
    (durs : Nat → Nat) (h : r ctx = .err msg) :
    (evaluateRule r ctx n d).result = false
  ∧ (evaluateRule r ctx n d).error = some msg
  ∧ (evaluatePermission (.inline r) ctx rulesMap mode durs).ruleResults =
      [{ rule := "inline", result := false, duration := durs 0,
         error := some msg }] := by
  refine ⟨?_, ?_, ?_⟩ <;> simp [evaluateRule, evaluatePermission, h]

theorem evaluateRule_failure_containment_spot :
    (evaluateRule (fun _ => .err "boom") (sampleCtx [] [] [])
      "boom.rule" 0).result = false
  ∧ (evaluateRule (fun _ => .err "boom") (sampleCtx [] [] [])
      "boom.rule" 0).error = some "boom"
  ∧ (evaluatePermission (.inline (fun _ => .err "boom"))
      (sampleCtx [] [] []) [] .any zeroDurs).ruleResults =
      [{ rule := "inline", result := false, duration := 0,
         error := some "boom" }] :=
  evaluateRule_failure_containment (fun _ => .err "boom")
    (sampleCtx [] [] []) "boom.rule" "boom" 0 [] .any zeroDurs rfl

/-- C4: full trace in input order — for every name sequence and mode,
the trace carries exactly one entry per name, tagged with that name, in
the order of the input sequence; in particular every entry is executed,
with no short-circuiting on an early decisive outcome. -/
theorem evaluatePermission_full_trace (l : List String)
    (ctx : PermissionContext) (rulesMap : RulesMap) (mode : Mode)
    (durs : Nat → Nat) :
    (evaluatePermission (.names l) ctx rulesMap mode durs).ruleResults.map
      (fun e => e.rule) = l := by
  simp [evaluatePermission, evalNames_map_rule]

/-- C5: feature-flag names — when the rulesMap has no entry for a name
of the form "flag:" followed by a suffix, resolution returns a synthetic
rule whose outcome is exactly the truthiness of the context's flag at
the suffix key (true for a truthy flag, false for a falsy or absent
one), the evaluation's allowed equals that truthiness, and no error is
recorded; the result depends on the flags alone, so it never falls
through to permission or role membership. -/
theorem resolveStringRule_flag (name : String) (suffix : List Char)
    (rulesMap : RulesMap) (ctx : PermissionContext) (durs : Nat → Nat)
    (hlook : rulesMap.lookup name = none)
    (hpre : takeFlag name.data = some suffix) :
    (∀ c : PermissionContext,
       resolveStringRule name rulesMap ctx c =
         .ok (flagValue c.flags (String.mk suffix)))
  ∧ (evaluatePermission (.single name) ctx rulesMap .any durs).allowed =
      flagValue ctx.flags (String.mk suffix)
  ∧ (evaluatePermission (.single name) ctx rulesMap .any
      durs).ruleResults.map (fun e => e.error) = [none] := by
  have hres : resolveStringRule name rulesMap ctx =
      fun c => .ok (flagValue c.flags (String.mk suffix)) := by
    simp [resolveStringRule, hlook, hpre]
  refine ⟨fun c => by rw [hres], ?_, ?_⟩ <;>
    simp [evaluatePermission, hres, evaluateRule]

theorem resolveStringRule_flag_spot :
    (evaluatePermission (.single "flag:newUI")
      (sampleCtx [] [] [("newUI", true)]) [] .any zeroDurs).allowed = true
  ∧ (evaluatePermission (.single "flag:newUI")
      (sampleCtx [] [] []) [] .any zeroDurs).allowed = false :=
  ⟨(resolveStringRule_flag "flag:newUI" "newUI".data []
      (sampleCtx [] [] [("newUI", true)]) zeroDurs rfl rfl).2.1,
   (resolveStringRule_flag "flag:newUI" "newUI".data []
      (sampleCtx [] [] []) zeroDurs rfl rfl).2.1⟩

/-- C6: unresolvable names — a name with no registered rule, no "flag:"
syntax, and no permission or role membership resolves (never fails) to
an always-false rule, so its evaluation yields allowed = false and a
trace entry with no error recorded. -/
theorem resolveStringRule_unresolvable (name : String)
    (rulesMap : RulesMap) (ctx : PermissionContext) (durs : Nat → Nat)
    (h1 : rulesMap.lookup name = none)
    (h2 : takeFlag name.data = none)
    (h3 : name ∉ ctx.permissions) (h4 : name ∉ ctx.roles) :
    resolveStringRule name rulesMap ctx = (fun _ => .ok false)
  ∧ (evaluatePermission (.single name) ctx rulesMap .any durs).allowed =
      false
  ∧ (evaluatePermission (.single name) ctx rulesMap .any
      durs).ruleResults =
      [{ rule := name, result := false, duration := durs 0,
         error := none }] := by
  have hres : resolveStringRule name rulesMap ctx = fun _ => .ok false := by
    simp [resolveStringRule, h1, h2, h3, h4]
  refine ⟨hres, ?_, ?_⟩ <;> simp [evaluatePermission, hres, evaluateRule]

theorem resolveStringRule_unresolvable_spot :
    (evaluatePermission (.single "not.exists") (sampleCtx [] [] []) []
      .any zeroDurs).allowed = false
  ∧ (evaluatePermission (.single "not.exists") (sampleCtx [] [] []) []
      .any zeroDurs).ruleResults =
      [{ rule := "not.exists", result := false, duration := 0,
         error := none }] :=
  ⟨(resolveStringRule_unresolvable "not.exists" [] (sampleCtx [] [] [])
      zeroDurs rfl rfl (by decide) (by decide)).2.1,
   (resolveStringRule_unresolvable "not.exists" [] (sampleCtx [] [] [])
      zeroDurs rfl rfl (by decide) (by decide)).2.2⟩

/-- C7: inline predicates — evaluatePermission on an inline rule skips
the resolver and executes the predicate exactly once: the trace is the
singleton of that one execution, its identifier is the literal "inline",
and allowed equals that single entry's boolean. -/
theorem evaluatePermission_inline (r : PermissionRule PermissionContext)
    (ctx : PermissionContext) (rulesMap : RulesMap) (mode : Mode)
    (durs : Nat → Nat) :
    (evaluatePermission (.inline r) ctx rulesMap mode durs).ruleResults =
      [evaluateRule r ctx "inline" (durs 0)]
  ∧ (evaluatePermission (.inline r) ctx rulesMap mode
      durs).ruleResults.map (fun e => e.rule) = ["inline"]
  ∧ (evaluatePermission (.inline r) ctx rulesMap mode durs).allowed =
      (evaluateRule r ctx "inline" (durs 0)).result := by
  refine ⟨rfl, ?_, rfl⟩
  simp [evaluatePermission, evaluateRule_rule]

/-- C8: determinism — the embedded rules are pure functions of the
context, so two runs of evaluatePermission with identical check,
context, rulesMap and mode agree on allowed and on every trace entry's
boolean, even under different timing oracles (durations may differ). -/
theorem evaluatePermission_deterministic (check : PermissionCheck)
    (ctx : PermissionContext) (rulesMap : RulesMap) (mode : Mode)
    (d1 d2 : Nat → Nat) :
    (evaluatePermission check ctx rulesMap mode d1).allowed =
      (evaluatePermission check ctx rulesMap mode d2).allowed
  ∧ (evaluatePermission check ctx rulesMap mode d1).ruleResults.map
      (fun e => e.result) =
      (evaluatePermission check ctx rulesMap mode d2).ruleResults.map
        (fun e => e.result) := by
  cases check with
  | inline r =>
      constructor <;>
        simp [evaluatePermission, evaluateRule_result_durs _ _ _ (d1 0) (d2 0)]
  | single n =>
      constructor <;>
        simp [evaluatePermission, evaluateRule_result_durs _ _ _ (d1 0) (d2 0)]
  | names l =>
      have hmap := evalNames_map_result_durs l ctx rulesMap d1 d2 0 0
      exact ⟨combine_congr mode _ _ hmap, hmap⟩

/-- C9: PermissionsRoot override frame — with no override field defined
the props pass to PermissionsProvider unchanged; otherwise each defined
override replaces only its own field (roles, permissions or flags), an
undefined override leaves its field at the props value, and user, rules
and children always pass through unchanged. -/
theorem PermissionsRoot_override_frame (props : RootProps)
    (ds : DevToolsState) :
    (ds.overrideRoles = none → ds.overridePermissions = none →
       ds.overrideFlags = none → effectiveProps props ds = props)
  ∧ (effectiveProps props ds).user = props.user
  ∧ (effectiveProps props ds).rules = props.rules
  ∧ (effectiveProps props ds).children = props.children
  ∧ (∀ v, ds.overrideRoles = some v →
       (effectiveProps props ds).roles = some v)
  ∧ (ds.overrideRoles = none →
       (effectiveProps props ds).roles = props.roles)
  ∧ (∀ v, ds.overridePermissions = some v →
       (effectiveProps props ds).permissions = some v)
  ∧ (ds.overridePermissions = none →
       (effectiveProps props ds).permissions = props.permissions)
  ∧ (∀ v, ds.overrideFlags = some v →
       (effectiveProps props ds).flags = some v)
  ∧ (ds.overrideFlags = none →
       (effectiveProps props ds).flags = props.flags) := by
  obtain ⟨r, p, f⟩ := ds
  cases r <;> cases p <;> cases f <;>
    simp [effectiveProps, coalesce]

theorem PermissionsRoot_override_frame_spot :
    effectiveProps
      { user := "u", roles := some ["admin"], permissions := none,
        flags := none, rules := [], children := "app" }
      { overrideRoles := some ["viewer"], overridePermissions := none,
        overrideFlags := none } =
      { user := "u", roles := some ["viewer"], permissions := none,
        flags := none, rules := [], children := "app" } := by
  have h := PermissionsRoot_override_frame
    { user := "u", roles := some ["admin"], permissions := none,
      flags := none, rules := [], children := "app" }
    { overrideRoles := some ["viewer"], overridePermissions := none,
      overrideFlags := none }
  have hr := h.2.2.2.2.1 ["viewer"] rfl
  have hp := h.2.2.2.2.2.2.2.1 rfl
  have hf := h.2.2.2.2.2.2.2.2.2 rfl
  have hu := h.2.1
  have hm := h.2.2.1
  have hc := h.2.2.2.1
  cases he : effectiveProps
      { user := "u", roles := some ["admin"], permissions := none,
        flags := none, rules := [], children := "app" }
      { overrideRoles := some ["viewer"], overridePermissions := none,
        overrideFlags := none }
  rw [he] at hr hp hf hu hm hc
  simp only at hr hp hf hu hm hc
  simp [hr, hp, hf, hu, hm, hc]

theorem step_preserves_denied_while_loading (s : HookState)
    (e : HookEvent) (h : s.loading = true → s.allowed = false) :
    (step s e).loading = true → (step s e).allowed = false := by
  cases e with
  | effectStart => intro _; rfl
  | settle g b =>
      by_cases hc : s.active && g == s.gen
      · simp [step, hc]
      · simpa [step, hc] using h
  | cleanup => simpa [step] using h

theorem foldl_preserves_denied_while_loading (events : List HookEvent) :
    ∀ s : HookState, (s.loading = true → s.allowed = false) →
      ((events.foldl step s).loading = true →
        (events.foldl step s).allowed = false) := by
  induction events with
  | nil => exact fun s h => h
  | cons e rest ih =>
      intro s h
      exact ih (step s e) (step_preserves_denied_while_loading s e h)

/-- C10: usePermission state invariant — in every state reachable from
the initial state, loading = true implies allowed = false; the initial
state and every effect (re)start reset the state to allowed = false,
loading = true; a settle only turns allowed true together with loading
turning false; and a settle whose effect generation was cancelled (its
cleanup ran, or a newer effect superseded it) performs no state
update. -/
theorem usePermission_loading_invariant (events : List HookEvent)
    (s : HookState) (g : Nat) (b : Bool) :
    ((runHook events).loading = true → (runHook events).allowed = false)
  ∧ (initState.allowed = false ∧ initState.loading = true)
  ∧ ((step s .effectStart).allowed = false ∧
      (step s .effectStart).loading = true)
  ∧ (s.active = false → step s (.settle g b) = s)
  ∧ (g ≠ s.gen → step s (.settle g b) = s)
  ∧ (s.active = true → g = s.gen → step s (.settle g true) =
      { s with allowed := true, loading := false }) := by
  refine ⟨foldl_preserves_denied_while_loading events initState
    (fun _ => rfl), ⟨rfl, rfl⟩, ⟨rfl, rfl⟩, ?_, ?_, ?_⟩
  · intro h
    simp [step, h]
  · intro h
    simp [step, h]
  · intro h1 h2
    simp [step, h1, h2]

theorem usePermission_loading_invariant_spot :
    (runHook []).allowed = false
  ∧ step initState (.settle 5 true) = initState :=
  ⟨(usePermission_loading_invariant [] initState 5 true).1 rfl,
   (usePermission_loading_invariant [] initState 5 true).2.2.2.2.1
     (by decide)⟩
